import Mathlib

/-!
Verification development for the onebillion repository (src/generate.py and
src/verify.py): a shallow embedding in Lean 4 of the data generator, the
chunked verifier and their shared statistics model, together with theorems
settling the frozen specification claims.

Modelling conventions:
* Python floats are modelled as exact rationals `ℚ` (a separate model with
  infinities is used for the `StationStats.__post_init__` sentinel claim).
* Text is modelled as `List Char`, one `Char` per byte position (the
  measurement data of interest is ASCII, so byte offsets and character
  offsets coincide).
* Python dicts are modelled as insertion-ordered association lists: an
  assignment to an existing key replaces the value in place, an assignment
  to a fresh key appends at the end, exactly as CPython dicts behave.
* Fallible Python code (KeyError / ValueError) is modelled with `Option` and
  `Except String`.
-/

/-! ### Ordered-dictionary model of Python dicts -/

/-- Lookup in an association list, `d[k]` / `d.get(k)` on a Python dict. -/
def dlookup {K V : Type} [DecidableEq K] (d : List (K × V)) (k : K) : Option V :=
  (d.find? (fun p => decide (p.1 = k))).map Prod.snd

theorem dlookup_nil {K V : Type} [DecidableEq K] (k : K) :
    dlookup ([] : List (K × V)) k = none := rfl

/-- Dict assignment `d[k] = v`: replace in place if the key exists
(CPython keeps the key's position), else append at the end. -/
def dset {K V : Type} [DecidableEq K] (d : List (K × V)) (k : K) (v : V) :
    List (K × V) :=
  match d with
  | [] => [(k, v)]
  | (k', v') :: rest => if k' = k then (k, v) :: rest else (k', v') :: dset rest k v

/-- Python `dict.update(d')`: assign every entry of `d'` in iteration order,
replacing (not combining) the values of keys already present. -/
def dupdate {K V : Type} [DecidableEq K] (d d' : List (K × V)) : List (K × V) :=
  d'.foldl (fun m p => dset m p.1 p.2) d

/-- The merge-into-accumulator loop both the verifier
(`calculate_statistics`) and the generator (`__aggregate_stats`) use: for
each entry of `chunk`, insert it if its key is absent from `acc`, otherwise
combine it with the present value using `comb old new`. -/
def dmergeWith {K V : Type} [DecidableEq K] (comb : V → V → V)
    (acc chunk : List (K × V)) : List (K × V) :=
  chunk.foldl
    (fun m p =>
      match dlookup m p.1 with
      | none => dset m p.1 p.2
      | some old => dset m p.1 (comb old p.2))
    acc

/-! ### verify.py: StationStats -/

/-- The `StationStats` dataclass from verify.py, over exact rationals.  On finite inputs
`__post_init__` is the identity (its tests compare against `float("inf")`
and `float("-inf")`), so this finite model omits it; the sentinel behaviour
is modelled separately by `StationStatsF` below. -/
structure StationStats where
  min_temp : ℚ
  max_temp : ℚ
  sum_temp : ℚ
  count : ℕ
  deriving DecidableEq

/-- Property `StationStats.mean_temp`: `sum_temp / count` when `count > 0`, else `0.0`. -/
def StationStats.mean_temp (s : StationStats) : ℚ :=
  if s.count > 0 then s.sum_temp / s.count else 0

/-- Method `StationStats.merge`: componentwise min of mins, max of maxes,
sum of sums, sum of counts. -/
def StationStats.merge (s other : StationStats) : StationStats :=
  { min_temp := min s.min_temp other.min_temp
    max_temp := max s.max_temp other.max_temp
    sum_temp := s.sum_temp + other.sum_temp
    count := s.count + other.count }

/-! ### verify.py: parse_line -/

/-- Digit test by code point (`'0'` to `'9'`), as Python `float` accepts. -/
def isDigitCh (c : Char) : Bool :=
  48 ≤ c.toNat && c.toNat ≤ 57

/-- Whitespace by code point: the ASCII characters Python's `str.strip` and
`float` discard (space, tab, newline, carriage return, vertical tab,
form feed). -/
def isWsCh (c : Char) : Bool :=
  c.toNat = 32 || c.toNat = 9 || c.toNat = 10 || c.toNat = 13 ||
    c.toNat = 11 || c.toNat = 12

/-- Python `str.strip()` over a character list. -/
def trimChars (cs : List Char) : List Char :=
  ((cs.dropWhile isWsCh).reverse.dropWhile isWsCh).reverse

/-- Python `str.split(";")`: split at every `';'`, keeping empty parts
(`"".split(";") == [""]`). -/
def splitSemi : List Char → List (List Char)
  | [] => [[]]
  | c :: cs =>
    if c = ';' then [] :: splitSemi cs
    else
      match splitSemi cs with
      | [] => [[c]]
      | p :: ps => (c :: p) :: ps

/-- Numeric value of a digit string (most significant first); `0` when empty. -/
def digitsVal (cs : List Char) : ℕ :=
  cs.foldl (fun n c => 10 * n + (c.toNat - 48)) 0

/-- Model of the Python builtin `float(s)` restricted to plain decimal
literals: optional surrounding whitespace, an optional sign, then digits
with at most one decimal point and at least one digit overall
(`"1"`, `"-12.5"`, `"1."`, `".5"`).  Exotic inputs the builtin also accepts
(exponents, `inf`, `nan`, digit underscores) are outside this model. -/
def pyFloat? (s : List Char) : Option ℚ :=
  let cs := trimChars s
  let body := match cs with
    | '-' :: rest => rest
    | '+' :: rest => rest
    | _ => cs
  let neg : Bool := match cs with
    | '-' :: _ => true
    | _ => false
  let intPart := body.takeWhile (fun c => ¬ c = '.')
  let rest := body.dropWhile (fun c => ¬ c = '.')
  let val? : Option ℚ :=
    match rest with
    | [] =>
      if intPart.isEmpty || ¬ intPart.all isDigitCh then none
      else some (digitsVal intPart)
    | _ :: frac =>
      if (intPart.isEmpty && frac.isEmpty) || ¬ intPart.all isDigitCh
          || ¬ frac.all isDigitCh then none
      else some ((digitsVal intPart : ℚ) + (digitsVal frac : ℚ) / 10 ^ frac.length)
  val?.map (fun v => if neg then -v else v)

/-- Method `MeasurementVerifier.parse_line`: strip the line, split on `';'`; succeed
only when the split yields exactly two parts and the second parses as a
float, returning `(station, temperature)`; any other shape is a parse
failure (`None, None` in the source). -/
def parse_line (line : List Char) : Option (String × ℚ) :=
  match splitSemi (trimChars line) with
  | [station, tempStr] =>
    match pyFloat? tempStr with
    | some t => some (⟨station⟩, t)
    | none => none
  | _ => none

/-! ### verify.py: process_chunk -/

/-- Per-line accumulation step from the `process_chunk` loop body: skip the
line if it fails to parse, otherwise create a one-sample `StationStats` for a
fresh station or fold the sample into the existing entry. -/
def chunkStep (stats : List (String × StationStats)) (line : List Char) :
    List (String × StationStats) :=
  match parse_line line with
  | none => stats
  | some (station, temp) =>
    match dlookup stats station with
    | none => dset stats station ⟨temp, temp, temp, 1⟩
    | some s =>
      dset stats station
        ⟨min s.min_temp temp, max s.max_temp temp, s.sum_temp + temp, s.count + 1⟩

/-- Python `f.readline()` viewed from a character position: the characters from the
current position up to and including the next `'\n'` (or to end of file). -/
def takeLine : List Char → List Char
  | [] => []
  | c :: cs => if c = '\n' then [c] else c :: takeLine cs

/-- The line read from position `pos` of file `f`, paired with the position
after it.  At or past end of file the line is empty and the position is
unchanged, as in Python. -/
def readLine (f : List Char) (pos : ℕ) : List Char × ℕ :=
  let l := takeLine (f.drop pos)
  (l, pos + l.length)

/-- The `while f.tell() < end_byte` loop of `process_chunk`, with a
structural fuel argument.  Every iteration that continues consumes at least
one character, so any fuel of at least `f.length + 1` makes the model agree
with the source loop. -/
def scanLoop : ℕ → List Char → ℕ → ℕ → List (String × StationStats) →
    List (String × StationStats)
  | 0, _, _, _, acc => acc
  | fuel + 1, f, endByte, pos, acc =>
    if pos < endByte then
      let r := readLine f pos
      if r.1.isEmpty then acc
      else scanLoop fuel f endByte r.2 (chunkStep acc r.1)
    else acc

/-- Method `MeasurementVerifier.process_chunk (file, start, end)`: seek to `start`;
when `start > 0` read and discard one line (the source's unconditional
"skip partial line" step); then scan lines while the position is below
`end`. -/
def process_chunk (f : List Char) (startByte endByte : ℕ) :
    List (String × StationStats) :=
  let pos0 := if 0 < startByte then (readLine f startByte).2 else 0
  scanLoop (f.length + 1) f endByte pos0 []

/-- The chunk-merging loop of `calculate_statistics`. -/
def mergeChunkResults (results : List (List (String × StationStats))) :
    List (String × StationStats) :=
  results.foldl (dmergeWith StationStats.merge) []

/-- The byte ranges induced by interior split points `cuts` over a file of
`size` bytes: `[0,c₁), [c₁,c₂), …, [cₖ,size)`. -/
def splitRanges (size : ℕ) (cuts : List ℕ) : List (ℕ × ℕ) :=
  let bounds := 0 :: cuts
  bounds.zip (cuts ++ [size])

/-- Chunked scan of a whole file at the given split points, merged as
`calculate_statistics` merges its pool results. -/
def chunkedScan (f : List Char) (cuts : List ℕ) : List (String × StationStats) :=
  mergeChunkResults ((splitRanges f.length cuts).map (fun r => process_chunk f r.1 r.2))

/-- A single sequential scan of the whole file: one chunk covering
`[0, f.length)`. -/
def seqScan (f : List Char) : List (String × StationStats) :=
  process_chunk f 0 f.length

/-- An eight-byte measurement file of two well-formed lines; byte 4 is the
exact start of the second line. -/
def file8 : List Char := "a;1\nb;2\n".data


/-! ### generate.py: StationResult and worker statistics -/

/-- The `StationResult` dataclass from generate.py. -/
structure StationResult where
  min_temp : ℚ
  max_temp : ℚ
  sum_temp : ℚ
  count : ℕ
  deriving DecidableEq

/-- Method `StationResult.update`: keep the larger max and smaller min, add counts
and sums (the coordinator's combine rule). -/
def StationResult.update (s other : StationResult) : StationResult :=
  { max_temp := if other.max_temp > s.max_temp then other.max_temp else s.max_temp
    min_temp := if other.min_temp < s.min_temp then other.min_temp else s.min_temp
    count := s.count + other.count
    sum_temp := s.sum_temp + other.sum_temp }

/-- Constant `TEMP_OFFSET` is 2000: temperature index `j` denotes `(j - 2000) / 10`
degrees. -/
def temp_of_idx (j : ℕ) : ℚ := ((j : ℚ) - 2000) / 10

/-- Function `np.min` over a nonempty list (`calc_stats` only applies it to the
nonempty sample set of a station that occurs). -/
def listMin : List ℚ → ℚ
  | [] => 0
  | x :: xs => xs.foldl min x

/-- Function `np.max` over a nonempty list. -/
def listMax : List ℚ → ℚ
  | [] => 0
  | x :: xs => xs.foldl max x

/-- Function `np.unique`: the distinct values of a list in increasing order. -/
def uniqueSorted (l : List ℕ) : List ℕ :=
  List.insertionSort (· ≤ ·) l.dedup

/-- Method `FileGenerator.__calc_stats` on parallel index arrays, modelled as a
list of `(station index, temperature index)` pairs: for every station that
occurs, the min/max/sum/count of its temperatures, keyed by station name. -/
def calc_stats (names : ℕ → String) (pairs : List (ℕ × ℕ)) :
    List (String × StationResult) :=
  (uniqueSorted (pairs.map Prod.fst)).map (fun sidx =>
    let ts := (pairs.filter (fun p => p.1 = sidx)).map (fun p => temp_of_idx p.2)
    (names sidx,
      { max_temp := listMax ts
        min_temp := listMin ts
        sum_temp := ts.sum
        count := ts.length }))

/-- The loop state of `FileGenerator.__worker`: the lap counter, the index
batches accumulated since the last flush (`all_station_indices` /
`all_temp_indices`), and the `stats` dict. -/
structure WorkerAcc where
  laps : ℕ
  pending : List (ℕ × ℕ)
  stats : List (String × StationResult)

/-- One iteration of the `__worker` loop on the batch it just wrote: append
the batch to the pending arrays, bump `laps`, and every 10th lap convert the
pending rows to statistics with `__calc_stats` and `dict.update` them into
`stats`, clearing the pending arrays. -/
def workerStep (names : ℕ → String) (st : WorkerAcc) (batch : List (ℕ × ℕ)) :
    WorkerAcc :=
  let pending := st.pending ++ batch
  let laps := st.laps + 1
  if laps % 10 = 0 then
    { laps := laps, pending := [], stats := dupdate st.stats (calc_stats names pending) }
  else
    { laps := laps, pending := pending, stats := st.stats }

/-- The statistics map `__worker` stores in `return_dict` after writing the
given batches: the final `stats` dict of the loop above. -/
def workerStats (names : ℕ → String) (batches : List (List (ℕ × ℕ))) :
    List (String × StationResult) :=
  (batches.foldl (workerStep names) ⟨0, [], []⟩).stats

/-- Method `FileGenerator.__aggregate_stats`: merge the per-worker statistics maps
with `StationResult.update`, inserting unseen stations. -/
def aggregate_stats (workerResults : List (List (String × StationResult))) :
    List (String × StationResult) :=
  workerResults.foldl (dmergeWith StationResult.update) []

/-! ### generate.py: row-count split and the write loop -/

/-- Field `FileGenerator.rows_per_worker = num_rows // num_workers`. -/
def rows_per_worker (numRows numWorkers : ℕ) : ℕ := numRows / numWorkers

/-- The row quota `FileGenerator.start` hands to worker `i`: the common
share for every worker but the last, which absorbs the remainder. -/
def workerShare (numRows numWorkers i : ℕ) : ℕ :=
  if i = numWorkers - 1 then numRows - rows_per_worker numRows numWorkers * (numWorkers - 1)
  else rows_per_worker numRows numWorkers

/-- All workers' quotas in worker-index order. -/
def shares (numRows numWorkers : ℕ) : List ℕ :=
  (List.range numWorkers).map (workerShare numRows numWorkers)

/-- The successive batch sizes of the `__worker` write loop
(`min(worker_batch_size, num_rows - rows_cnt)` until the quota is reached),
with structural fuel; fuel `rows` suffices whenever `batchSize ≥ 1`, each
iteration writing at least one row.  (A nonpositive batch size makes the
source loop diverge; the model returns the rows written so far.) -/
def batchSizesAux (batchSize : ℕ) : ℕ → ℕ → List ℕ
  | 0, _ => []
  | fuel + 1, rows =>
    let b := min batchSize rows
    if b = 0 then [] else b :: batchSizesAux batchSize fuel (rows - b)

/-- The list of batch sizes `__worker` writes for a quota of `rows`. -/
def workerBatchSizes (batchSize rows : ℕ) : List ℕ :=
  batchSizesAux batchSize rows rows

/-- The digit character of `d < 10`. -/
def digitChar (d : ℕ) : Char := Char.ofNat (48 + d)

/-- Decimal digits of `n`, most significant first, with structural fuel
(any fuel above `n` suffices). -/
def natDigs : ℕ → ℕ → List Char
  | 0, _ => []
  | fuel + 1, n => if n < 10 then [digitChar n] else natDigs fuel (n / 10) ++ [digitChar (n % 10)]

/-- Decimal rendering of a natural number. -/
def natChars (n : ℕ) : List Char := natDigs (n + 1) n

/-- Entry `TEMP_LOOKUP[j] = f"{(j - 2000) / 10.0:.1f}\n"`: the temperature text of
index `j`, one decimal digit, newline-terminated. -/
def tempChars (j : ℕ) : List Char :=
  let v : ℤ := (j : ℤ) - 2000
  (if v < 0 then ['-'] else []) ++ natChars (v.natAbs / 10) ++
    '.' :: digitChar (v.natAbs % 10) :: ['\n']

/-- One generated row, `STATION_NAMES[s] + TEMP_LOOKUP[t]` (the stored
station entry already carries the `';'`). -/
def renderRow (names : ℕ → String) (p : ℕ × ℕ) : List Char :=
  (names p.1).data ++ ';' :: tempChars p.2

/-- Number of lines of a byte string, as newline count. -/
def countNL (cs : List Char) : ℕ := cs.count '\n'

/-! ### verify.py: comparison, counts and process exit -/

/-- The `ExpectedResult` dataclass from verify.py. -/
structure ExpectedResult where
  station : String
  min_temp : ℚ
  max_temp : ℚ
  mean_temp : ℚ
  deriving DecidableEq

/-- An entry of the `mismatches` list of `verify_file`: either a `MISSING`
record or a field-mismatch record carrying which of the three comparisons
succeeded (the source renders the failed ones into the
`{MIN,MAX,MEAN}_MISMATCH` status string). -/
inductive Finding where
  | missing (station : String)
  | fieldMismatch (station : String) (minOk maxOk meanOk : Bool)
  deriving DecidableEq

/-- Method `MeasurementVerifier.compare_values`: absolute difference within
tolerance, boundary included. -/
def compare_values (tolerance actual expected : ℚ) : Bool :=
  decide (|actual - expected| ≤ tolerance)

/-- The per-station comparison of `verify_file`: `none` when all of
min/max/mean match (the station joins `matches`), otherwise the mismatch
finding appended to `mismatches`. -/
def classifyStation (tolerance : ℚ) (actual : StationStats) (e : ExpectedResult) :
    Option Finding :=
  let minMatch := compare_values tolerance actual.min_temp e.min_temp
  let maxMatch := compare_values tolerance actual.max_temp e.max_temp
  let meanMatch := compare_values tolerance actual.mean_temp e.mean_temp
  if minMatch && maxMatch && meanMatch then none
  else some (.fieldMismatch e.station minMatch maxMatch meanMatch)

/-- The `mismatches` list accumulated over all expected stations: `MISSING`
for stations absent from the computed map, a field finding for present
stations that fail a comparison. -/
def findingsOf (tolerance : ℚ) (actual : List (String × StationStats))
    (expected : List (String × ExpectedResult)) : List Finding :=
  expected.foldl
    (fun ms p =>
      match dlookup actual p.1 with
      | none => ms ++ [.missing p.1]
      | some a =>
        match classifyStation tolerance a p.2 with
        | none => ms
        | some f => ms ++ [f])
    []

/-- List `extra_in_actual`: computed stations absent from the expected table. -/
def extrasOf (actual : List (String × StationStats))
    (expected : List (String × ExpectedResult)) : List String :=
  (actual.map Prod.fst).filter (fun st => (dlookup expected st).isNone)

/-- Is a finding the `MISSING` kind?  (The source counts mismatches as the
entries whose status string does not contain `"MISSING"`.) -/
def isMissingFinding : Finding → Bool
  | .missing _ => true
  | .fieldMismatch _ _ _ _ => false

/-- The summary statistics `verify_file` reports for one dataset. -/
structure VerifyCounts where
  matched : ℕ
  mismatched : ℕ
  missing : ℕ
  extra : ℕ
  success : Bool
  deriving DecidableEq

/-- The counts and success flag of `verify_file`: success iff the
`mismatches` list (which includes `MISSING` entries) and the extras list are
both empty. -/
def verifyCounts (tolerance : ℚ) (actual : List (String × StationStats))
    (expected : List (String × ExpectedResult)) : VerifyCounts :=
  let ms := findingsOf tolerance actual expected
  let extras := extrasOf actual expected
  { matched := (expected.filter (fun p =>
      match dlookup actual p.1 with
      | none => false
      | some a => (classifyStation tolerance a p.2).isNone)).length
    mismatched := (ms.filter (fun f => ¬ isMissingFinding f)).length
    missing := (ms.filter isMissingFinding).length
    extra := extras.length
    success := ms.isEmpty && extras.isEmpty }

/-- The `main` exit status over the requested datasets, each given as the
computed statistics paired with the expected table: `overall_success` is the
conjunction of the per-dataset successes, and both exit paths of the source
map it to status 0, everything else to 1. -/
def mainExitCode (tolerance : ℚ)
    (datasets : List ((List (String × StationStats)) × List (String × ExpectedResult))) : ℕ :=
  if datasets.foldl (fun acc d => acc && (verifyCounts tolerance d.1 d.2).success) true
  then 0 else 1

/-! ### verify.py: load_expected_results -/

/-- Expression `row.get("avg") or row.get("mean")`: Python's `or` falls through on a
missing key and on the falsy empty string. -/
def meanField (row : List (String × String)) : Option String :=
  match dlookup row "avg" with
  | some v => if v = "" then dlookup row "mean" else some v
  | none => dlookup row "mean"

/-- Loading one CSV row into an `ExpectedResult`, in source evaluation
order: `row["station"]` (KeyError when absent), the avg/mean synonym lookup
(KeyError when neither is present), then `float` of min, max and the mean
field (ValueError on parse failure). -/
def loadRow (row : List (String × String)) : Except String ExpectedResult :=
  match dlookup row "station" with
  | none => .error "KeyError: station"
  | some station =>
    match meanField row with
    | none => .error "KeyError: CSV must have either avg or mean column"
    | some meanVal =>
      match dlookup row "min" with
      | none => .error "KeyError: min"
      | some minStr =>
        match pyFloat? minStr.data with
        | none => .error "ValueError: min"
        | some mn =>
          match dlookup row "max" with
          | none => .error "KeyError: max"
          | some maxStr =>
            match pyFloat? maxStr.data with
            | none => .error "ValueError: max"
            | some mx =>
              match pyFloat? meanVal.data with
              | none => .error "ValueError: mean"
              | some me => .ok ⟨station, mn, mx, me⟩

/-- Method `MeasurementVerifier.load_expected_results` over the rows produced by
`csv.DictReader`: build the station-keyed dict of expected results, failing
on the first bad row. -/
def load_expected_results (rows : List (List (String × String))) :
    Except String (List (String × ExpectedResult)) :=
  rows.foldlM (fun acc row => do
    let e ← loadRow row
    pure (dset acc e.station e)) []

/-- Reader `csv.DictReader`: pair each record's fields with the header names
(missing trailing fields are simply absent, as a `row.get` then yields
`None`). -/
def dictReader (header : List String) (records : List (List String)) :
    List (List (String × String)) :=
  records.map header.zip

/-- The comparison phase of `verify_file` for one dataset whose statistics
were already computed: load the expected table (a failure there aborts
before any comparison), then compare. -/
def verify_dataset (tolerance : ℚ) (actual : List (String × StationStats))
    (table : List (List (String × String))) : Except String VerifyCounts := do
  let expected ← load_expected_results table
  pure (verifyCounts tolerance actual expected)

/-! ### generate.py: results CSV -/

/-- A CSV cell: station names are strings, statistics are (rounded)
numbers. -/
inductive CsvVal where
  | s (v : String)
  | q (v : ℚ)
  deriving DecidableEq

/-- Round half to even to an integer (the rounding of Python's builtin
`round`). -/
def halfEven (x : ℚ) : ℤ :=
  let f := ⌊x⌋
  if x - f < 1 / 2 then f
  else if x - f > 1 / 2 then f + 1
  else if f % 2 = 0 then f else f + 1

/-- Python `round(x, 1)`. -/
def pyRound1 (x : ℚ) : ℚ := (halfEven (x * 10) : ℚ) / 10

/-- One row dict of `__prepare_csv_data`, with its literal key order
`station, min, max, avg` and `round(·, 1)` applied to the numeric fields;
`avg` is `sum/count` guarded by `count > 0`. -/
def csvRowDict (name : String) (st : StationResult) : List (String × CsvVal) :=
  let avg : ℚ := if st.count > 0 then st.sum_temp / st.count else 0
  [("station", .s name), ("min", .q (pyRound1 st.min_temp)),
    ("max", .q (pyRound1 st.max_temp)), ("avg", .q (pyRound1 avg))]

/-- The sort key `x["station"]` of a prepared row. -/
def rowStation (row : List (String × CsvVal)) : String :=
  match dlookup row "station" with
  | some (.s n) => n
  | _ => ""

/-- Code-point lexicographic `≤` on strings, CPython's string comparison. -/
def keyLe : List Char → List Char → Bool
  | [], _ => true
  | _ :: _, [] => false
  | a :: as, b :: bs => if a.toNat = b.toNat then keyLe as bs else decide (a.toNat < b.toNat)

/-- Row order of the results table: ascending station name. -/
def rowLe (r r' : List (String × CsvVal)) : Prop :=
  keyLe (rowStation r).data (rowStation r').data = true

instance : DecidableRel rowLe := fun _ _ => decEq _ _

/-- Method `FileGenerator.__prepare_csv_data`: one row per aggregated station,
sorted ascending by station name (a stable sort, like `list.sort`). -/
def prepare_csv_data (stats : List (String × StationResult)) :
    List (List (String × CsvVal)) :=
  List.insertionSort rowLe (stats.map (fun p => csvRowDict p.1 p.2))

/-- The header `__write_results_csv` emits: the key list of the first row
(`list(results[0].keys())`); nothing is written when there are no rows. -/
def csvHeader (rows : List (List (String × CsvVal))) : List String :=
  match rows with
  | [] => []
  | r :: _ => r.map Prod.fst

/-! ### verify.py: StationStats with float infinities -/

/-- A Python float that may be `inf` or `-inf` (`nan` never arises in the
modelled flows). -/
inductive PFloat where
  | num (q : ℚ)
  | inf
  | ninf
  deriving DecidableEq

/-- Float division by a positive count. -/
def PFloat.divNat : PFloat → ℕ → PFloat
  | .num q, n => .num (q / n)
  | .inf, _ => .inf
  | .ninf, _ => .ninf

/-- Is the float finite? -/
def PFloat.isFinite : PFloat → Bool
  | .num _ => true
  | _ => false

/-- The `StationStats` dataclass over floats-with-infinities, for the
`__post_init__` sentinel behaviour. -/
structure StationStatsF where
  min_temp : PFloat
  max_temp : PFloat
  sum_temp : PFloat
  count : ℕ
  deriving DecidableEq

/-- Construction of a `StationStats` including `__post_init__`: a `+inf`
min or a `-inf` max sentinel is coerced to `0.0`. -/
def mkStationStatsF (mn mx sm : PFloat) (c : ℕ) : StationStatsF :=
  { min_temp := if mn = .inf then .num 0 else mn
    max_temp := if mx = .ninf then .num 0 else mx
    sum_temp := sm
    count := c }

/-- Property `mean_temp` on the float model: `sum_temp / count` when `count > 0`,
else `0.0` — no division is attempted at count zero. -/
def StationStatsF.mean_temp (s : StationStatsF) : PFloat :=
  if s.count > 0 then s.sum_temp.divNat s.count else .num 0

/-! ### Concrete fixtures -/

/-- Station names for concrete runs: index 0 is `"A"`, all others `"B"`. -/
def exNames : ℕ → String := fun i => if i = 0 then "A" else "B"

/-- Twenty single-row batches for station 0: ten at 100.0 degrees
(temperature index 3000) followed by ten at -100.0 degrees (index 1000). -/
def batches20 : List (List (ℕ × ℕ)) :=
  List.replicate 10 [(0, 3000)] ++ List.replicate 10 [(0, 1000)]

/-- C1: the claim fails on the code.  In the eight-byte file `"a;1\nb;2\n"`
the second line starts exactly at byte 4.  Splitting there, the first chunk
`[0,4)` stops once its position reaches 4, so it never reads line two, while
the second chunk `[4,8)` unconditionally discards the first line it reads
after seeking — a *full* line here, not a partial one — so station `b` is
missing from the merged chunked result although the sequential scan has it.
A split one byte later (mid-line, byte 5) is handled correctly, confirming
the loss is specific to split points that coincide with a line start. -/
theorem chunk_split_on_line_boundary_loses_line :
    (dlookup (seqScan file8) "b").isSome = true
    ∧ (dlookup (chunkedScan file8 [4]) "b").isNone = true
    ∧ (dlookup (chunkedScan file8 [5]) "b").isSome = true := by
  exact ⟨by decide, by decide, by decide⟩

/-- C2: the claim fails on the code.  `__worker` converts the pending index
batches into statistics only every 10th lap, and folds them in with
`dict.update`, which *replaces* per-station entries.  A worker that writes a
single batch (e.g. a quota equal to one batch size) returns the empty map
although it wrote rows; a worker that writes twenty single-row batches for
one station returns the statistics of only the last ten rows (count 10),
while the rows it actually wrote number twenty. -/
theorem worker_returned_stats_incomplete :
    workerStats exNames [[(0, 2000)]] = []
    ∧ (calc_stats exNames [(0, 2000)]).map Prod.fst = ["A"]
    ∧ (dlookup (workerStats exNames batches20) "A").map StationResult.count = some 10
    ∧ (dlookup (calc_stats exNames batches20.flatten) "A").map StationResult.count
        = some 20 := by
  exact ⟨by decide, by decide, by decide, by decide⟩

/-- C10: `mean_temp` divides only when the count is positive and returns
`0.0` otherwise, and `__post_init__` coerces a `+inf` min or a `-inf` max
sentinel to `0.0`, so even the all-sentinel zero-count accumulator exposes
only finite values. -/
theorem post_init_and_mean_are_safe :
    (∀ s : StationStatsF,
        s.mean_temp = if 0 < s.count then s.sum_temp.divNat s.count else .num 0)
    ∧ (∀ mx sm c, (mkStationStatsF .inf mx sm c).min_temp = .num 0)
    ∧ (∀ mn sm c, (mkStationStatsF mn .ninf sm c).max_temp = .num 0)
    ∧ ((mkStationStatsF .inf .ninf (.num 0) 0).min_temp.isFinite = true
        ∧ (mkStationStatsF .inf .ninf (.num 0) 0).max_temp.isFinite = true
        ∧ (mkStationStatsF .inf .ninf (.num 0) 0).mean_temp = .num 0) := by
  refine ⟨fun s => rfl, fun mx sm c => by simp [mkStationStatsF],
    fun mn sm c => by simp [mkStationStatsF], by decide, by decide, by decide⟩

/-! ### Dictionary lemmas -/

theorem dlookup_cons {K V : Type} [DecidableEq K] (k' : K) (v' : V)
    (rest : List (K × V)) (k : K) :
    dlookup ((k', v') :: rest) k = if k' = k then some v' else dlookup rest k := by
  by_cases h : k' = k <;> simp [dlookup, List.find?_cons, h]

theorem dlookup_dset {K V : Type} [DecidableEq K] (d : List (K × V)) (k : K) (v : V)
    (k' : K) :
    dlookup (dset d k v) k' = if k = k' then some v else dlookup d k' := by
  induction d with
  | nil => by_cases h : k = k' <;> simp [dset, dlookup_cons, h]
  | cons p rest ih =>
    obtain ⟨k₀, v₀⟩ := p
    by_cases h0 : k₀ = k
    · subst h0
      by_cases h : k₀ = k' <;> simp [dset, dlookup_cons, h]
    · simp only [dset, if_neg h0, dlookup_cons, ih]
      by_cases h1 : k₀ = k' <;> by_cases h2 : k = k'
      · exact absurd (h1.trans h2.symm) h0
      · simp [h1, h2]
      · simp [h1, h2]
      · simp [h1, h2]

theorem dlookup_not_mem {K V : Type} [DecidableEq K] {d : List (K × V)} {k : K}
    (h : k ∉ d.map Prod.fst) : dlookup d k = none := by
  induction d with
  | nil => rfl
  | cons p rest ih =>
    simp only [List.map_cons, List.mem_cons] at h
    push_neg at h
    rw [dlookup_cons, if_neg (fun hk => h.1 hk.symm), ih h.2]

/-- Combining two optional per-station partial results: the pointwise face
of the insert-or-combine merge loop. -/
def optCombine {V : Type} (comb : V → V → V) : Option V → Option V → Option V
  | none, b => b
  | some a, none => some a
  | some a, some b => some (comb a b)

theorem optCombine_none_right {V : Type} (comb : V → V → V) (x : Option V) :
    optCombine comb x none = x := by
  cases x <;> rfl

theorem optCombine_assoc {V : Type} (comb : V → V → V)
    (hassoc : ∀ a b c, comb (comb a b) c = comb a (comb b c)) (x y z : Option V) :
    optCombine comb (optCombine comb x y) z = optCombine comb x (optCombine comb y z) := by
  cases x <;> cases y <;> cases z <;> simp [optCombine, hassoc]

theorem optCombine_comm {V : Type} (comb : V → V → V)
    (hcomm : ∀ a b, comb a b = comb b a) (x y : Option V) :
    optCombine comb x y = optCombine comb y x := by
  cases x <;> cases y <;> simp [optCombine, hcomm]

theorem dlookup_dmergeWith {K V : Type} [DecidableEq K] (comb : V → V → V) :
    ∀ (chunk acc : List (K × V)), (chunk.map Prod.fst).Nodup → ∀ k,
      dlookup (dmergeWith comb acc chunk) k
        = optCombine comb (dlookup acc k) (dlookup chunk k) := by
  intro chunk
  induction chunk with
  | nil =>
    intro acc _ k
    simp [dmergeWith, dlookup, optCombine_none_right]
  | cons p rest ih =>
    intro acc h k
    obtain ⟨kp, vp⟩ := p
    rw [List.map_cons] at h
    obtain ⟨hkp, hnd⟩ := List.nodup_cons.mp h
    have hunf : dmergeWith comb acc ((kp, vp) :: rest)
        = dmergeWith comb
            (match dlookup acc kp with
             | none => dset acc kp vp
             | some old => dset acc kp (comb old vp)) rest := rfl
    rw [hunf, ih _ hnd k, dlookup_cons]
    by_cases hk : kp = k
    · subst hk
      rw [if_pos rfl, dlookup_not_mem hkp, optCombine_none_right]
      cases hacc : dlookup acc kp <;>
        simp [hacc, dlookup_dset, optCombine]
    · rw [if_neg hk]
      cases hacc : dlookup acc kp <;>
        simp [hacc, dlookup_dset, if_neg hk]

theorem dlookup_foldl_mergeWith {K V : Type} [DecidableEq K] (comb : V → V → V) :
    ∀ (l : List (List (K × V))) (acc : List (K × V)),
      (∀ d ∈ l, (d.map Prod.fst).Nodup) → ∀ k,
      dlookup (l.foldl (dmergeWith comb) acc) k
        = (l.map (fun d => dlookup d k)).foldl (optCombine comb) (dlookup acc k) := by
  intro l
  induction l with
  | nil => intro acc _ k; rfl
  | cons d rest ih =>
    intro acc h k
    simp only [List.foldl_cons, List.map_cons]
    rw [ih _ (fun e he => h e (List.mem_cons_of_mem _ he)),
      dlookup_dmergeWith comb d acc (h d (List.mem_cons_self _ _)) k]

theorem foldl_optCombine_perm {V : Type} (comb : V → V → V)
    (hassoc : ∀ a b c, comb (comb a b) c = comb a (comb b c))
    (hcomm : ∀ a b, comb a b = comb b a)
    {l₁ l₂ : List (Option V)} (h : l₁.Perm l₂) (b : Option V) :
    l₁.foldl (optCombine comb) b = l₂.foldl (optCombine comb) b := by
  haveI : RightCommutative (optCombine comb) := ⟨fun x a₁ a₂ => by
    rw [optCombine_assoc comb hassoc, optCombine_comm comb hcomm a₁ a₂,
      ← optCombine_assoc comb hassoc]⟩
  exact h.foldl_eq b

/-! ### The combine rule in normal form -/

theorem merge_normal_form (a b : StationStats) :
    a.merge b = ⟨min a.min_temp b.min_temp, max a.max_temp b.max_temp,
      a.sum_temp + b.sum_temp, a.count + b.count⟩ := rfl

theorem update_normal_form (a b : StationResult) :
    a.update b = ⟨min a.min_temp b.min_temp, max a.max_temp b.max_temp,
      a.sum_temp + b.sum_temp, a.count + b.count⟩ := by
  have hmin : (if b.min_temp < a.min_temp then b.min_temp else a.min_temp)
      = min a.min_temp b.min_temp := by
    rcases le_or_lt a.min_temp b.min_temp with h | h
    · rw [if_neg (not_lt.mpr h), min_eq_left h]
    · rw [if_pos h, min_eq_right h.le]
  have hmax : (if b.max_temp > a.max_temp then b.max_temp else a.max_temp)
      = max a.max_temp b.max_temp := by
    rcases le_or_lt b.max_temp a.max_temp with h | h
    · rw [if_neg (not_lt.mpr h), max_eq_left h]
    · rw [if_pos h, max_eq_right h.le]
  simp [StationResult.update, hmin, hmax]

/-- C3: the shared combine rule — min of mins, max of maxes, sum of sums,
sum of counts — is associative and commutative in both of its guises
(`StationStats.merge` in the verifier, `StationResult.update` in the
generator), and consequently both the verifier's chunk aggregation and the
coordinator's worker aggregation give, station by station, results
independent of the order in which the partial maps arrive. -/
theorem merge_operation_order_independent :
    (∀ a b c : StationStats, (a.merge b).merge c = a.merge (b.merge c))
    ∧ (∀ a b : StationStats, a.merge b = b.merge a)
    ∧ (∀ a b c : StationResult, (a.update b).update c = a.update (b.update c))
    ∧ (∀ a b : StationResult, a.update b = b.update a)
    ∧ (∀ chunks chunks' : List (List (String × StationStats)),
        (∀ d ∈ chunks, (d.map Prod.fst).Nodup) → chunks.Perm chunks' →
        ∀ st, dlookup (mergeChunkResults chunks) st
          = dlookup (mergeChunkResults chunks') st)
    ∧ (∀ ws ws' : List (List (String × StationResult)),
        (∀ d ∈ ws, (d.map Prod.fst).Nodup) → ws.Perm ws' →
        ∀ st, dlookup (aggregate_stats ws) st = dlookup (aggregate_stats ws') st) := by
  have hsa : ∀ a b c : StationStats, (a.merge b).merge c = a.merge (b.merge c) := by
    intro a b c
    simp [StationStats.merge, min_assoc, max_assoc, add_assoc]
  have hsc : ∀ a b : StationStats, a.merge b = b.merge a := by
    intro a b
    simp [StationStats.merge, min_comm, max_comm, add_comm]
  have hra : ∀ a b c : StationResult, (a.update b).update c = a.update (b.update c) := by
    intro a b c
    simp [update_normal_form, min_assoc, max_assoc, add_assoc]
  have hrc : ∀ a b : StationResult, a.update b = b.update a := by
    intro a b
    simp [update_normal_form, min_comm, max_comm, add_comm]
  refine ⟨hsa, hsc, hra, hrc, ?_, ?_⟩
  · intro chunks chunks' h hperm st
    have h' : ∀ d ∈ chunks', (d.map Prod.fst).Nodup := fun d hd =>
      h d (hperm.mem_iff.mpr hd)
    rw [mergeChunkResults, mergeChunkResults,
      dlookup_foldl_mergeWith _ _ _ h st, dlookup_foldl_mergeWith _ _ _ h' st]
    exact foldl_optCombine_perm _ hsa hsc (hperm.map _) _
  · intro ws ws' h hperm st
    have h' : ∀ d ∈ ws', (d.map Prod.fst).Nodup := fun d hd =>
      h d (hperm.mem_iff.mpr hd)
    rw [aggregate_stats, aggregate_stats,
      dlookup_foldl_mergeWith _ _ _ h st, dlookup_foldl_mergeWith _ _ _ h' st]
    exact foldl_optCombine_perm _ hra hrc (hperm.map _) _

/-- Two chunk results, overlapping on station `a`, for the C3 witness. -/
def chunkA : List (String × StationStats) := [("a", ⟨1, 1, 1, 1⟩)]

/-- Second chunk result for the C3 witness. -/
def chunkB : List (String × StationStats) :=
  [("a", ⟨2, 2, 2, 1⟩), ("b", ⟨0, 0, 0, 1⟩)]

theorem merge_operation_order_independent_witness :
    dlookup (mergeChunkResults [chunkA, chunkB]) "a"
      = dlookup (mergeChunkResults [chunkB, chunkA]) "a" :=
  merge_operation_order_independent.2.2.2.2.1 [chunkA, chunkB] [chunkB, chunkA]
    (by decide) (List.Perm.swap chunkB chunkA []) "a"

/-- C5: `compare_values` accepts exactly the pairs within tolerance, with an
inclusive boundary, and the per-station classification of `verify_file`
declares a MATCH (no mismatch finding) precisely when all three fields are
within tolerance — in particular a field whose absolute difference equals
the tolerance exactly. -/
theorem compare_values_tolerance_inclusive :
    (∀ tolerance a b : ℚ, compare_values tolerance a b = true ↔ |a - b| ≤ tolerance)
    ∧ (∀ tolerance a b : ℚ, |a - b| = tolerance → compare_values tolerance a b = true)
    ∧ (∀ (tolerance : ℚ) (s : StationStats) (e : ExpectedResult),
        classifyStation tolerance s e = none ↔
          (|s.min_temp - e.min_temp| ≤ tolerance
            ∧ |s.max_temp - e.max_temp| ≤ tolerance
            ∧ |s.mean_temp - e.mean_temp| ≤ tolerance)) := by
  have h1 : ∀ tolerance a b : ℚ, compare_values tolerance a b = true ↔ |a - b| ≤ tolerance := by
    intro t a b
    simp [compare_values]
  refine ⟨h1, fun t a b h => (h1 t a b).mpr h.le, ?_⟩
  intro t s e
  by_cases hb : (compare_values t s.min_temp e.min_temp
      && compare_values t s.max_temp e.max_temp
      && compare_values t s.mean_temp e.mean_temp) = true
  · have hs := hb
    simp only [Bool.and_eq_true, h1] at hs
    simp [classifyStation, hb, hs.1.1, hs.1.2, hs.2]
  · have hs := hb
    simp only [Bool.and_eq_true, h1, not_and_or] at hs
    constructor
    · intro hc
      exact absurd hc (by simp [classifyStation, hb])
    · rintro ⟨hm, hx, hn⟩
      rcases hs with (h | h) | h <;> [exact absurd hm h; exact absurd hx h; exact absurd hn h]

theorem compare_values_tolerance_inclusive_witness :
    compare_values 1 3 2 = true :=
  compare_values_tolerance_inclusive.2.1 1 3 2 (by norm_num)

/-- Folding conjunction over a list, as `main` folds per-dataset success. -/
theorem foldl_and_eq_all {α : Type} (f : α → Bool) :
    ∀ (l : List α) (b : Bool), l.foldl (fun acc d => acc && f d) b = (b && l.all f) := by
  intro l
  induction l with
  | nil => intro b; simp
  | cons x xs ih => intro b; simp [List.all_cons, ih, Bool.and_assoc]

/-- Success of `verify_file` is exactly: no mismatched, no missing, no extra
stations. -/
theorem success_iff_counts (tolerance : ℚ) (actual : List (String × StationStats))
    (expected : List (String × ExpectedResult)) :
    (verifyCounts tolerance actual expected).success = true ↔
      ((verifyCounts tolerance actual expected).mismatched = 0
        ∧ (verifyCounts tolerance actual expected).missing = 0
        ∧ (verifyCounts tolerance actual expected).extra = 0) := by
  simp only [verifyCounts, Bool.and_eq_true, List.isEmpty_iff]
  constructor
  · rintro ⟨h1, h2⟩
    simp [h1, h2]
  · rintro ⟨h1, h2, h3⟩
    rw [List.length_eq_zero, List.filter_eq_nil_iff] at h1 h2
    rw [List.length_eq_zero] at h3
    refine ⟨List.eq_nil_iff_forall_not_mem.mpr fun f hf => ?_, h3⟩
    have hmiss := h2 f hf
    have hnot := h1 f hf
    cases f with
    | missing st => exact hmiss (by simp [isMissingFinding])
    | fieldMismatch st a b c => exact hnot (by simp [isMissingFinding])

/-- C8: the process exit status of `main` is 0 exactly when every requested
dataset verified with zero mismatched, zero missing and zero extra
stations. -/
theorem exit_status_zero_iff_clean (tolerance : ℚ)
    (datasets : List ((List (String × StationStats)) × List (String × ExpectedResult))) :
    mainExitCode tolerance datasets = 0 ↔
      ∀ d ∈ datasets, (verifyCounts tolerance d.1 d.2).mismatched = 0
        ∧ (verifyCounts tolerance d.1 d.2).missing = 0
        ∧ (verifyCounts tolerance d.1 d.2).extra = 0 := by
  have hiff : mainExitCode tolerance datasets = 0 ↔
      datasets.all (fun d => (verifyCounts tolerance d.1 d.2).success) = true := by
    rw [mainExitCode, foldl_and_eq_all, Bool.true_and]
    split_ifs with h <;> simp [h]
  rw [hiff, List.all_eq_true]
  constructor
  · intro h d hd
    exact (success_iff_counts tolerance d.1 d.2).mp (h d hd)
  · intro h d hd
    exact (success_iff_counts tolerance d.1 d.2).mpr (h d hd)

/-- C9: the chunk scan's per-line step leaves the statistics untouched on
any line that fails to parse and never aborts; scanning a line list equals
scanning only its parseable lines; and a line fails to parse exactly when
its stripped content does not split on `';'` into precisely two parts with
a float-parseable second part. -/
theorem malformed_lines_skipped_only :
    (∀ (stats : List (String × StationStats)) (line : List Char),
        parse_line line = none → chunkStep stats line = stats)
    ∧ (∀ lines : List (List Char),
        lines.foldl chunkStep []
          = (lines.filter (fun l => (parse_line l).isSome)).foldl chunkStep [])
    ∧ (∀ line : List Char,
        parse_line line = none ↔
          ∀ st ts, splitSemi (trimChars line) = [st, ts] → pyFloat? ts = none) := by
  have hskip : ∀ (stats : List (String × StationStats)) (line : List Char),
      parse_line line = none → chunkStep stats line = stats := by
    intro stats line h
    simp [chunkStep, h]
  refine ⟨hskip, ?_, ?_⟩
  · have gen : ∀ (lines : List (List Char)) (init : List (String × StationStats)),
        lines.foldl chunkStep init
          = (lines.filter (fun l => (parse_line l).isSome)).foldl chunkStep init := by
      intro lines
      induction lines with
      | nil => intro init; rfl
      | cons l rest ih =>
        intro init
        by_cases h : (parse_line l).isSome
        · have hf : List.filter (fun x => (parse_line x).isSome) (l :: rest)
              = l :: List.filter (fun x => (parse_line x).isSome) rest := by
            simp [List.filter_cons, h]
          rw [List.foldl_cons, ih, hf, List.foldl_cons]
        · have hn : parse_line l = none := by
            cases hl : parse_line l
            · rfl
            · exact absurd (by simp [hl]) h
          have hf : List.filter (fun x => (parse_line x).isSome) (l :: rest)
              = List.filter (fun x => (parse_line x).isSome) rest := by
            simp [List.filter_cons, h]
          rw [List.foldl_cons, hskip init l hn, ih, hf]
    exact fun lines => gen lines []
  · intro line
    rcases hsp : splitSemi (trimChars line) with _ | ⟨st, rest⟩
    · simp [parse_line, hsp]
    rcases rest with _ | ⟨ts, rest2⟩
    · simp [parse_line, hsp]
    rcases rest2 with _ | ⟨c, rest3⟩
    · cases hp : pyFloat? ts with
      | none =>
        constructor
        · intro _ st' ts' hpair
          obtain ⟨rfl, rfl, -⟩ : st = st' ∧ ts = ts' ∧ True := by
            injection hpair with h1 h2
            injection h2 with h2 h3
            exact ⟨h1, h2, trivial⟩
          exact hp
        · intro _
          simp [parse_line, hsp, hp]
      | some q =>
        constructor
        · intro h
          simp [parse_line, hsp, hp] at h
        · intro h
          exact absurd (h st ts rfl) (by simp [hp])
    · simp [parse_line, hsp]

theorem malformed_lines_skipped_only_witness :
    chunkStep [] "no separator here".data = [] :=
  malformed_lines_skipped_only.1 [] _ (by decide)

/-! ### Row-count lemmas -/

theorem batchSizesAux_sum (batchSize : ℕ) (hb : 1 ≤ batchSize) :
    ∀ fuel rows, rows ≤ fuel → (batchSizesAux batchSize fuel rows).sum = rows := by
  intro fuel
  induction fuel with
  | zero =>
    intro rows h
    have h0 : rows = 0 := Nat.le_zero.mp h
    subst h0
    rfl
  | succ n ih =>
    intro rows h
    by_cases h0 : rows = 0
    · subst h0
      simp [batchSizesAux]
    · have hmin : ¬ min batchSize rows = 0 := by omega
      rw [batchSizesAux]
      simp only [hmin, if_false]
      rw [List.sum_cons, ih _ (by omega)]
      omega

theorem digitChar_ne_nl {d : ℕ} (h : d < 10) : digitChar d ≠ '\n' := by
  interval_cases d <;> decide

theorem natDigs_ne_nl : ∀ fuel n, ∀ c ∈ natDigs fuel n, c ≠ '\n' := by
  intro fuel
  induction fuel with
  | zero =>
    intro n c hc
    simp [natDigs] at hc
  | succ m ih =>
    intro n c hc
    rw [natDigs] at hc
    by_cases h : n < 10
    · rw [if_pos h] at hc
      simp only [List.mem_singleton] at hc
      subst hc
      exact digitChar_ne_nl h
    · rw [if_neg h] at hc
      rcases List.mem_append.mp hc with h1 | h1
      · exact ih _ c h1
      · simp only [List.mem_singleton] at h1
        subst h1
        exact digitChar_ne_nl (Nat.mod_lt _ (by norm_num))

theorem countNL_append (a b : List Char) : countNL (a ++ b) = countNL a + countNL b :=
  List.count_append _ a b

theorem countNL_tempChars (j : ℕ) : countNL (tempChars j) = 1 := by
  rw [tempChars]
  have h1 : countNL (if ((j : ℤ) - 2000) < 0 then ['-'] else []) = 0 := by
    split_ifs <;> decide
  have h2 : countNL (natChars (((j : ℤ) - 2000).natAbs / 10)) = 0 :=
    List.count_eq_zero.mpr (fun hmem => natDigs_ne_nl _ _ '\n' hmem rfl)
  have hd : digitChar (((j : ℤ) - 2000).natAbs % 10) ≠ '\n' :=
    digitChar_ne_nl (Nat.mod_lt _ (by norm_num))
  rw [countNL_append, countNL_append, h1, h2]
  have h3 : countNL ('.' :: digitChar (((j : ℤ) - 2000).natAbs % 10) :: ['\n']) = 1 := by
    rw [countNL]
    simp [List.count_cons, hd]
  omega

theorem countNL_renderRow (names : ℕ → String) (p : ℕ × ℕ)
    (h : '\n' ∉ (names p.1).data) : countNL (renderRow names p) = 1 := by
  rw [renderRow, countNL_append]
  have hn : countNL (names p.1).data = 0 := List.count_eq_zero.mpr h
  have ht : countNL (';' :: tempChars p.2) = countNL (tempChars p.2) := by
    rw [countNL, List.count_cons]
    simp [countNL]
  rw [hn, ht, countNL_tempChars]

theorem countNL_flatten_rows (names : ℕ → String)
    (h : ∀ i, '\n' ∉ (names i).data) :
    ∀ rows : List (ℕ × ℕ), countNL ((rows.map (renderRow names)).flatten) = rows.length := by
  intro rows
  induction rows with
  | nil => rfl
  | cons p ps ih =>
    rw [List.map_cons, List.flatten_cons, countNL_append,
      countNL_renderRow names p (h p.1), ih, List.length_cons]
    omega

/-- C4: the coordinator's split gives every non-last worker
`⌊N/W⌋` rows and the last worker the exact remainder, so the quotas sum to
`N`; the worker write loop emits exactly its quota (for any positive batch
size); each emitted row renders as exactly one line (station names
containing no newline); hence the workers together write exactly `N`
lines. -/
theorem row_split_and_write_exact (N W : ℕ) (hN : 1 ≤ N) (hW : 1 ≤ W) :
    ((shares N W).length = W
      ∧ (∀ i, i < W - 1 → workerShare N W i = N / W)
      ∧ workerShare N W (W - 1) = N - N / W * (W - 1)
      ∧ (shares N W).sum = N)
    ∧ (∀ batchSize rows, 1 ≤ batchSize → (workerBatchSizes batchSize rows).sum = rows)
    ∧ (∀ (names : ℕ → String) (rows : List (ℕ × ℕ)),
        (∀ i, '\n' ∉ (names i).data) →
        countNL ((rows.map (renderRow names)).flatten) = rows.length)
    ∧ (∀ batchSize, 1 ≤ batchSize →
        ((shares N W).map (fun r => (workerBatchSizes batchSize r).sum)).sum = N) := by
  obtain ⟨w, rfl⟩ : ∃ w, W = w + 1 := ⟨W - 1, (Nat.succ_pred_eq_of_pos hW).symm⟩
  have hlast : workerShare N (w + 1) w = N - N / (w + 1) * w := by
    simp [workerShare, rows_per_worker]
  have hmap : (List.range w).map (workerShare N (w + 1))
      = List.replicate w (N / (w + 1)) := by
    have hcg : ∀ i ∈ List.range w, workerShare N (w + 1) i
        = (fun _ => N / (w + 1)) i := by
      intro i hi
      rw [List.mem_range] at hi
      simp [workerShare, rows_per_worker, Nat.ne_of_lt hi]
    rw [List.map_congr_left hcg, List.map_const', List.length_range]
  have hle : N / (w + 1) * w ≤ N :=
    le_trans (Nat.mul_le_mul_left _ (Nat.le_succ w)) (Nat.div_mul_le_self N (w + 1))
  have hsum : (shares N (w + 1)).sum = N := by
    rw [shares, List.range_succ, List.map_append, List.sum_append, hmap,
      List.sum_replicate, List.map_singleton, List.sum_singleton, hlast,
      smul_eq_mul, mul_comm]
    exact Nat.add_sub_cancel' hle
  have hbatch : ∀ batchSize rows, 1 ≤ batchSize →
      (workerBatchSizes batchSize rows).sum = rows := fun b r hb =>
    batchSizesAux_sum b hb r r le_rfl
  refine ⟨⟨by simp [shares], ?_, by simpa using hlast, hsum⟩, hbatch,
    fun names rows h => countNL_flatten_rows names h rows, ?_⟩
  · intro i hi
    have : i ≠ w := by omega
    simp [workerShare, rows_per_worker, this]
  · intro batchSize hb
    have hcg : ∀ r ∈ shares N (w + 1),
        (fun r => (workerBatchSizes batchSize r).sum) r = id r := by
      intro r _
      simp [hbatch batchSize r hb]
    rw [List.map_congr_left hcg, List.map_id, hsum]

theorem row_split_and_write_exact_witness :
    (shares 5 2).sum = 5
    ∧ (workerBatchSizes 2 5).sum = 5
    ∧ countNL (([((0 : ℕ), (2000 : ℕ))].map (renderRow exNames)).flatten) = 1 := by
  obtain ⟨h1, h2, h3, _h4⟩ := row_split_and_write_exact 5 2 (by norm_num) (by norm_num)
  refine ⟨h1.2.2.2, h2 2 5 (by norm_num), h3 exNames [(0, 2000)] ?_⟩
  intro i
  by_cases h : i = 0 <;> simp [exNames, h]

/-! ### Except-monad reductions -/

theorem exceptBind_ok {ε α β : Type} (a : α) (f : α → Except ε β) :
    (Except.ok a >>= f) = f a := rfl

theorem exceptBind_error {ε α β : Type} (m : ε) (f : α → Except ε β) :
    ((Except.error m : Except ε α) >>= f) = .error m := rfl

theorem exceptPure_eq_ok {ε α : Type} (a : α) : (pure a : Except ε α) = .ok a := rfl

/-- A row without an `avg` and without a `mean` field makes `loadRow` fail
(with the synonym KeyError, or earlier with the station KeyError). -/
theorem loadRow_no_mean_error (row : List (String × String))
    (ha : dlookup row "avg" = none) (hm : dlookup row "mean" = none) :
    ∃ msg, loadRow row = .error msg := by
  have hmf : meanField row = none := by
    rw [meanField, ha, hm]
  cases hs : dlookup row "station" with
  | none => exact ⟨"KeyError: station", by simp [loadRow, hs]⟩
  | some st =>
    exact ⟨"KeyError: CSV must have either avg or mean column",
      by simp [loadRow, hs, hmf]⟩

/-- If any row of the table fails to load, `load_expected_results` cannot
succeed. -/
theorem load_expected_results_ne_ok_of_bad_row :
    ∀ (rows : List (List (String × String))) (row : List (String × String))
      (init : List (String × ExpectedResult)), row ∈ rows →
      (∃ m, loadRow row = .error m) →
      ∀ es, rows.foldlM (fun acc r => do
          let e ← loadRow r
          pure (dset acc e.station e)) init ≠ .ok es := by
  intro rows
  induction rows with
  | nil =>
    intro row init h
    exact absurd h (List.not_mem_nil row)
  | cons r rest ih =>
    intro row init hmem herr es
    rw [List.foldlM_cons]
    cases hr : loadRow r with
    | error m =>
      simp only [hr, exceptBind_error]
      intro hcontra
      cases hcontra
    | ok e =>
      rcases List.mem_cons.mp hmem with rfl | hmem2
      · obtain ⟨m, hm⟩ := herr
        rw [hm] at hr
        cases hr
      · simp only [hr, exceptBind_ok, exceptPure_eq_ok]
        exact ih row _ hmem2 herr es

/-- C6: the comparator accepts both the `station,min,mean,max` spelling and
the legacy `station,min,max,avg` spelling of the expected-results header,
loading the same `ExpectedResult` either way (`avg`/`mean` synonymous), and
a table offering neither an `avg` nor a `mean` column makes loading fail
with an error that aborts `verify_dataset` before any comparison result is
produced. -/
theorem header_synonyms_and_missing_mean_fatal (st mns mxs mes : String)
    (mn mx me : ℚ) (hmn : pyFloat? mns.data = some mn)
    (hmx : pyFloat? mxs.data = some mx) (hme : pyFloat? mes.data = some me)
    (hne : mes ≠ "") :
    load_expected_results
        (dictReader ["station", "min", "mean", "max"] [[st, mns, mes, mxs]])
      = .ok [(st, ⟨st, mn, mx, me⟩)]
    ∧ load_expected_results
        (dictReader ["station", "min", "max", "avg"] [[st, mns, mxs, mes]])
      = .ok [(st, ⟨st, mn, mx, me⟩)]
    ∧ (∀ (rows : List (List (String × String))) (row : List (String × String)),
        row ∈ rows → dlookup row "avg" = none → dlookup row "mean" = none →
        ∀ es, load_expected_results rows ≠ .ok es)
    ∧ (∀ (tolerance : ℚ) (actual : List (String × StationStats))
        (table : List (List (String × String))) (msg : String),
        load_expected_results table = .error msg →
        verify_dataset tolerance actual table = .error msg) := by
  refine ⟨?_, ?_, ?_, ?_⟩
  · have hrow : loadRow [("station", st), ("min", mns), ("mean", mes), ("max", mxs)]
        = .ok ⟨st, mn, mx, me⟩ := by
      have h1 : dlookup [("station", st), ("min", mns), ("mean", mes), ("max", mxs)]
          "station" = some st := by simp [dlookup_cons]
      have h2 : dlookup [("station", st), ("min", mns), ("mean", mes), ("max", mxs)]
          "min" = some mns := by simp [dlookup_cons]
      have h3 : dlookup [("station", st), ("min", mns), ("mean", mes), ("max", mxs)]
          "mean" = some mes := by simp [dlookup_cons]
      have h4 : dlookup [("station", st), ("min", mns), ("mean", mes), ("max", mxs)]
          "max" = some mxs := by simp [dlookup_cons]
      have h5 : dlookup [("station", st), ("min", mns), ("mean", mes), ("max", mxs)]
          "avg" = none := by simp [dlookup_cons, dlookup_nil]
      have hmf : meanField [("station", st), ("min", mns), ("mean", mes), ("max", mxs)]
          = some mes := by rw [meanField, h5, h3]
      simp only [loadRow, h1, hmf, h2, hmn, h4, hmx, hme]
    simp [load_expected_results, dictReader, List.foldlM_cons, List.foldlM_nil, hrow,
      exceptBind_ok, exceptPure_eq_ok, dset]
  · have hrow : loadRow [("station", st), ("min", mns), ("max", mxs), ("avg", mes)]
        = .ok ⟨st, mn, mx, me⟩ := by
      have h1 : dlookup [("station", st), ("min", mns), ("max", mxs), ("avg", mes)]
          "station" = some st := by simp [dlookup_cons]
      have h2 : dlookup [("station", st), ("min", mns), ("max", mxs), ("avg", mes)]
          "min" = some mns := by simp [dlookup_cons]
      have h4 : dlookup [("station", st), ("min", mns), ("max", mxs), ("avg", mes)]
          "max" = some mxs := by simp [dlookup_cons]
      have h5 : dlookup [("station", st), ("min", mns), ("max", mxs), ("avg", mes)]
          "avg" = some mes := by simp [dlookup_cons]
      have hmf : meanField [("station", st), ("min", mns), ("max", mxs), ("avg", mes)]
          = some mes := by
        rw [meanField, h5]
        simp [hne]
      simp only [loadRow, h1, hmf, h2, hmn, h4, hmx, hme]
    simp [load_expected_results, dictReader, List.foldlM_cons, List.foldlM_nil, hrow,
      exceptBind_ok, exceptPure_eq_ok, dset]
  · intro rows row hmem ha hm es
    exact load_expected_results_ne_ok_of_bad_row rows row [] hmem
      (loadRow_no_mean_error row ha hm) es
  · intro tolerance actual table msg herr
    rw [verify_dataset, herr, exceptBind_error]

theorem header_synonyms_and_missing_mean_fatal_witness :
    load_expected_results (dictReader ["station", "min", "max", "avg"] [["S", "1", "3", "2"]])
      = .ok [("S", ⟨"S", 1, 3, 2⟩)] :=
  (header_synonyms_and_missing_mean_fatal "S" "1" "3" "2" 1 3 2
    (by decide) (by decide) (by decide) (by decide)).2.1

/-! ### Station-name order -/

theorem keyLe_cons_nil (x : Char) (xs : List Char) : keyLe (x :: xs) [] = false := rfl

theorem keyLe_cons (x y : Char) (xs ys : List Char) :
    keyLe (x :: xs) (y :: ys)
      = if x.toNat = y.toNat then keyLe xs ys else decide (x.toNat < y.toNat) := rfl

theorem keyLe_total : ∀ a b : List Char, keyLe a b = true ∨ keyLe b a = true := by
  intro a
  induction a with
  | nil => intro b; left; rfl
  | cons x xs ih =>
    intro b
    cases b with
    | nil => right; rfl
    | cons y ys =>
      by_cases h : x.toNat = y.toNat
      · have h' : y.toNat = x.toNat := h.symm
        rw [keyLe_cons, keyLe_cons, if_pos h, if_pos h']
        exact ih ys
      · have h' : ¬ y.toNat = x.toNat := fun hy => h hy.symm
        rw [keyLe_cons, keyLe_cons, if_neg h, if_neg h']
        simp only [decide_eq_true_eq]
        omega

theorem keyLe_trans :
    ∀ a b c : List Char, keyLe a b = true → keyLe b c = true → keyLe a c = true := by
  intro a
  induction a with
  | nil => intro b c _ _; rfl
  | cons x xs ih =>
    intro b c hab hbc
    cases b with
    | nil => rw [keyLe_cons_nil] at hab; cases hab
    | cons y ys =>
      cases c with
      | nil => rw [keyLe_cons_nil] at hbc; cases hbc
      | cons z zs =>
        rw [keyLe_cons] at hab hbc
        rw [keyLe_cons]
        by_cases hxy : x.toNat = y.toNat <;> by_cases hyz : y.toNat = z.toNat
        · have hxz : x.toNat = z.toNat := hxy.trans hyz
          rw [if_pos hxy] at hab
          rw [if_pos hyz] at hbc
          rw [if_pos hxz]
          exact ih ys zs hab hbc
        · have hxz : ¬ x.toNat = z.toNat := fun hh => hyz (hxy.symm.trans hh)
          rw [if_neg hyz] at hbc
          rw [if_neg hxz]
          rw [decide_eq_true_eq] at hbc ⊢
          omega
        · have hxz : ¬ x.toNat = z.toNat := fun hh => hxy (hh.trans hyz.symm)
          rw [if_neg hxy] at hab
          rw [if_neg hxz]
          rw [decide_eq_true_eq] at hab ⊢
          omega
        · rw [if_neg hxy] at hab
          rw [if_neg hyz] at hbc
          rw [decide_eq_true_eq] at hab hbc
          have hxz : ¬ x.toNat = z.toNat := by omega
          rw [if_neg hxz, decide_eq_true_eq]
          omega

instance : IsTotal (List (String × CsvVal)) rowLe :=
  ⟨fun a b => keyLe_total (rowStation a).data (rowStation b).data⟩

instance : IsTrans (List (String × CsvVal)) rowLe :=
  ⟨fun a b c => keyLe_trans (rowStation a).data (rowStation b).data (rowStation c).data⟩

/-- Aggregated statistics for the results-table theorems: two stations in
non-alphabetical insertion order. -/
def exStats : List (String × StationResult) := [("B", ⟨1, 2, 3, 2⟩), ("A", ⟨0, 1, 1, 1⟩)]

/-- C7: the claim fails on the code.  The header the generator (and the
verifier's audit writer alike) emits is the legacy spelling
`station,min,max,avg` — the key order of the row dicts built by
`__prepare_csv_data` — not `station,min,mean,max` as claimed. -/
theorem results_header_is_avg_spelling :
    csvHeader (prepare_csv_data exStats) = ["station", "min", "max", "avg"]
    ∧ csvHeader (prepare_csv_data exStats) ≠ ["station", "min", "mean", "max"] := by
  exact ⟨by decide, by decide⟩

/-- C7 amended: the emitted results table has the legacy header
`station,min,max,avg` (the mean column spelled `avg` and placed last), its
rows are sorted ascending by station name, and every row is the row dict of
one aggregated station with `round(·, 1)` applied to min, max and mean. -/
theorem results_table_sorted_rounded (stats : List (String × StationResult))
    (h : stats ≠ []) :
    csvHeader (prepare_csv_data stats) = ["station", "min", "max", "avg"]
    ∧ List.Sorted rowLe (prepare_csv_data stats)
    ∧ ∀ row ∈ prepare_csv_data stats, ∃ p ∈ stats, row = csvRowDict p.1 p.2 := by
  have hperm := List.perm_insertionSort rowLe (stats.map (fun p => csvRowDict p.1 p.2))
  refine ⟨?_, List.sorted_insertionSort rowLe _, ?_⟩
  · cases hpc : prepare_csv_data stats with
    | nil =>
      exfalso
      apply h
      have hmap : stats.map (fun p => csvRowDict p.1 p.2) = [] := by
        have hp2 : List.Perm [] (stats.map (fun p => csvRowDict p.1 p.2)) := by
          rw [← hpc]
          exact hperm
        exact (List.Perm.symm hp2).eq_nil
      exact List.map_eq_nil.mp hmap
    | cons r rest =>
      have hr : r ∈ prepare_csv_data stats := by
        rw [hpc]
        exact List.mem_cons_self _ _
      obtain ⟨p, hp, hpe⟩ := List.mem_map.mp (hperm.subset hr)
      show r.map Prod.fst = _
      rw [← hpe]
      rfl
  · intro row hrow
    obtain ⟨p, hp, hpe⟩ := List.mem_map.mp (hperm.subset hrow)
    exact ⟨p, hp, hpe.symm⟩

theorem results_table_sorted_rounded_witness :
    csvHeader (prepare_csv_data exStats) = ["station", "min", "max", "avg"]
    ∧ List.Sorted rowLe (prepare_csv_data exStats) := by
  obtain ⟨h1, h2, -⟩ := results_table_sorted_rounded exStats (by decide)
  exact ⟨h1, h2⟩
